import Mathlib

/-!
A shallow embedding of the "exploiting modern hardware" teaching repository:
the SoA/AoS census pipeline (`src/lectures/soa/census.hpp`,
`src/lectures/soa/median-age.cpp`) and the generic benchmarking harness
(`timing.hpp` and `data-generation.hpp`).

Modelling conventions:
* `size_t` values are `Nat`; arithmetic wraps only where the C++ types force
  it, written as an explicit `% 2 ^ 64` (for `size_t`) or `% 2 ^ 32` (for
  32-bit `unsigned`, the type of `std::accumulate(..., 0u)` and of `Income`).
  `unsigned int` is modelled as 32 bits wide, as on every mainstream platform.
* The `std::` random engine and distributions are library internals whose
  algorithms are implementation-defined; they are modelled as abstract
  state-passing draw functions `σ → value × σ`.  Range facts the C++ standard
  mandates for a distribution (e.g. `binomial_distribution(120, p)` yields a
  value in `[0, 120]`) appear as hypotheses where a theorem needs them.
* `std::generate` / `std::for_each` over a vector are front-to-back folds;
  a stateful generator passed to `std::generate` is threaded through the
  elements in order (`generateFrom` below).
* A fatal `assert` is modelled by returning `Option`: `none` is the aborted
  process, `some v` a normal return of `v`.
* Wall-clock readings of `std::chrono::steady_clock` are abstract integer
  microsecond counts passed in as parameters; the standard guarantees the
  clock is monotonic, which appears as a hypothesis where needed.
-/

set_option maxRecDepth 100000

namespace csc586

/-- `enum class Sex { male, female };` -/
inductive Sex where
  | male : Sex
  | female : Sex
deriving DecidableEq

/-- `enum class HousingStatus { renter, owner };` -/
inductive HousingStatus where
  | renter : HousingStatus
  | owner : HousingStatus
deriving DecidableEq

/-- Modulus of the 32-bit unsigned types `unsigned int` and `Income` (`uint32_t`). -/
def u32Mod : Nat := 2 ^ 32

/-- Modulus of `size_t` (64-bit). -/
def u64Mod : Nat := 2 ^ 64

/--
The five `std::` distribution draws used by `census.hpp`, abstracted over the
random-engine state `σ` (the algorithms are library-internal and
implementation-defined; only their state-passing shape and standard-mandated
ranges matter here).  `sex_distr` and `country_distr` are
`uniform_int_distribution`, `age_distr` is `binomial_distribution<Age>(120, .25)`,
`hst_distr` is `bernoulli_distribution(0.68)`, `income_distr` is
`geometric_distribution<Income>(.5)`.
-/
structure Distributions (σ : Type) where
  sex_distr : σ → Nat × σ
  country_distr : σ → Nat × σ
  age_distr : σ → Nat × σ
  hst_distr : σ → Bool × σ
  income_distr : σ → Nat × σ

/--
`std::generate(v.begin(), v.end(), gen)` over a vector of length `n` with a
stateful generator `gen`: the elements are produced front to back, each call
advancing the generator state.  Returns the filled vector together with the
final generator state.
-/
def generateFrom {σ α : Type} (step : σ → α × σ) : Nat → σ → List α × σ
  | 0, s => ([], s)
  | n + 1, s =>
      let p := step s
      let r := generateFrom step n p.2
      (p.1 :: r.1, r.2)

/-- The generator state after `n` calls of `step`, starting from `s`. -/
def stateAfter {σ α : Type} (step : σ → α × σ) : Nat → σ → σ
  | 0, s => s
  | n + 1, s => stateAfter step n (step s).2

/-- `struct person` of `census.hpp` (fields in declaration order). -/
structure person where
  age : Nat
  country : Nat
  income : Nat
  hst : HousingStatus
  sex : Sex
deriving DecidableEq

namespace aos

/-- `using census = std::vector< person >;` -/
abbrev census : Type := List person

/--
`aos::build_person::operator()`: one record, drawing the five fields in the
evaluation order of the braced initialiser (age, country, income, hst, sex)
from the engine held by the functor.  The income draw is a `uint32_t` and the
added offset `+ 10000` is 32-bit unsigned arithmetic, hence the `% u32Mod`.
-/
def build_person {σ : Type} (d : Distributions σ) (s : σ) : person × σ :=
  let a := d.age_distr s
  let c := d.country_distr a.2
  let inc := d.income_distr c.2
  let h := d.hst_distr inc.2
  let sx := d.sex_distr h.2
  ( { age := a.1
    , country := c.1
    , income := (inc.1 + 10000) % u32Mod
    , hst := if h.1 then HousingStatus.owner else HousingStatus.renter
    , sex := if sx.1 = 0 then Sex.male else Sex.female }
  , sx.2 )

/--
`aos::create_random_census`: a vector of `population_size` records filled by
`std::generate` with a `build_person` functor; `s0` is the state of the
functor's default-constructed engine.
-/
def create_random_census {σ : Type} (d : Distributions σ) (population_size : Nat)
    (s0 : σ) : census :=
  (generateFrom (build_person d) population_size s0).1

/--
`aos::bucketise_by_age< NUM_BUCKETS >`: start from value-initialised (all
zero) counters and do `++buckets[ person.age ]` for each record in order.
`person.age` is a `uint8_t`, so with `NUM_BUCKETS = 256` every access is in
bounds; an (impossible in C++) out-of-range index leaves `List.set` a no-op.
-/
def bucketise_by_age (NUM_BUCKETS : Nat) (population_data : census) : List Nat :=
  population_data.foldl
    (fun buckets p => buckets.set p.age (buckets.getD p.age 0 + 1))
    (List.replicate NUM_BUCKETS 0)

end aos

namespace soa

/-- `struct census` of namespace `soa` (five field-parallel vectors). -/
structure census where
  sex : List Sex
  age : List Nat
  income : List Nat
  country : List Nat
  hst : List HousingStatus

/--
`soa::create_random_census`: one local default-constructed engine, five
`std::generate` passes in source order (sex, age, income, country, hst), each
advancing the same engine through the lambda's by-reference capture.
-/
def create_random_census {σ : Type} (d : Distributions σ) (population_size : Nat)
    (s0 : σ) : census :=
  let sex := generateFrom
    (fun s => let v := d.sex_distr s
              (if v.1 = 0 then Sex.male else Sex.female, v.2))
    population_size s0
  let age := generateFrom d.age_distr population_size sex.2
  let income := generateFrom d.income_distr population_size age.2
  let country := generateFrom d.country_distr population_size income.2
  let hst := generateFrom
    (fun s => let v := d.hst_distr s
              (if v.1 then HousingStatus.owner else HousingStatus.renter, v.2))
    population_size country.2
  { sex := sex.1, age := age.1, income := income.1
  , country := country.1, hst := hst.1 }

/--
`soa::bucketise_by_age< NUM_BUCKETS >`: all-zero counters, then
`++buckets[ age ]` over `population_data.age` in order (ages are `uint8_t`).
-/
def bucketise_by_age (NUM_BUCKETS : Nat) (population_data : census) : List Nat :=
  population_data.age.foldl
    (fun buckets a => buckets.set a (buckets.getD a 0 + 1))
    (List.replicate NUM_BUCKETS 0)

end soa

/--
`std::accumulate( buckets.cbegin(), buckets.cend(), 0u )` in
`find_median_bucket`'s assertion: the accumulator type is deduced from the
literal `0u` as 32-bit `unsigned`, so each addition of a `size_t` bucket count
is truncated back to 32 bits.
-/
def accumulate_u32 (buckets : List Nat) : Nat :=
  buckets.foldl (fun acc b => (acc + b) % u32Mod) 0

/--
The scan loop of `find_median_bucket`: `cumulative_total` is a `size_t`
(wrapping mod `2 ^ 64`); the first index whose cumulative total strictly
exceeds `n / 2` is returned, else one past the end (`buckets.size()`).
-/
def medianScan (n : Nat) : List Nat → Nat → Nat → Nat
  | [], i, _ => i
  | b :: bs, i, cum =>
      let cum2 := (cum + b) % u64Mod
      if n / 2 < cum2 then i else medianScan n bs (i + 1) cum2

/--
`find_median_bucket( buckets, n )` of `median-age.cpp`.  The assertion
compares the 32-bit-accumulated total (promoted to `size_t`) with `n`; on
mismatch the process aborts (`none`).  Otherwise the scan returns the first
index whose running total exceeds `n / 2`, or the sentinel `buckets.size()`.
-/
def find_median_bucket (buckets : List Nat) (n : Nat) : Option Nat :=
  if accumulate_u32 buckets = n then some (medianScan n buckets 0 0) else none

/--
Running `size_t` cumulative total of `find_median_bucket`'s loop after
consuming a prefix of the bucket list, starting from `cum`.
-/
def modCum (cum : Nat) (bs : List Nat) : Nat :=
  bs.foldl (fun a b => (a + b) % u64Mod) cum

/-- The loop's cumulative total after the first `i` buckets. -/
def cumAt (buckets : List Nat) (i : Nat) : Nat :=
  modCum 0 (buckets.take i)

namespace benchmark

/--
`csc586::benchmark::benchmark( f, test_instances )` of `timing.hpp`, for a
callable with `Nat`-valued outputs (the C++ is generic over any output type
with `+`): `output` starts at `0` and `std::for_each` from `cbegin()` to
`cend()` folds `output = output + f(v)` over the batch front to back.  The
two `steady_clock` readings are passed in as abstract microsecond counts
`start_time`, `end_time`; the returned average is their difference divided by
the batch size (a `float` in C++, modelled as `ℚ`).  Returns the accumulated
output (which the C++ prints) together with the average duration.
-/
def benchmark {α : Type} (f : α → Nat) (test_instances : List α)
    (start_time end_time : Int) : Nat × ℚ :=
  ( test_instances.foldl (fun output v => output + f v) 0
  , ((end_time - start_time : Int) : ℚ) / (test_instances.length : ℚ) )

/--
`csc586::benchmark::build_rand_vec( gen, size )` of `data-generation.hpp`:
a vector of `size` elements filled by `std::generate` with the stateful
zero-argument callable `gen`, modelled as a state-passing function with
initial state `s0`.
-/
def build_rand_vec {σ α : Type} (gen : σ → α × σ) (size : Nat) (s0 : σ) :
    List α :=
  (generateFrom gen size s0).1

end benchmark

/-- A concrete draw family over engine state `Nat`, used to instantiate the
universally quantified theorems below at executable inputs. -/
def exampleDraws : Distributions Nat where
  sex_distr := fun s => (s % 2, s + 1)
  country_distr := fun s => (s % 256, s + 1)
  age_distr := fun s => (s % 121, s + 1)
  hst_distr := fun s => (s % 3 == 0, s + 1)
  income_distr := fun s => (s % 7, s + 1)

/-! ### Generic lemmas about the embedded operations -/

theorem generateFrom_length {σ α : Type} (step : σ → α × σ) :
    ∀ (n : Nat) (s : σ), ((generateFrom step n s).1).length = n := by
  intro n
  induction n with
  | zero => intro s; rfl
  | succ n ih => intro s; simp [generateFrom, ih]

theorem generateFrom_mem {σ α : Type} (step : σ → α × σ) :
    ∀ (n : Nat) (s : σ) (x : α),
      x ∈ (generateFrom step n s).1 → ∃ t, x = (step t).1 := by
  intro n
  induction n with
  | zero => intro s x hx; simp [generateFrom] at hx
  | succ n ih =>
      intro s x hx
      simp only [generateFrom, List.mem_cons] at hx
      rcases hx with h | h
      · exact ⟨s, h⟩
      · exact ih _ x h

theorem generateFrom_getElem {σ α : Type} (step : σ → α × σ) :
    ∀ (n : Nat) (s : σ) (i : Nat), i < n →
      ((generateFrom step n s).1)[i]? = some ((step (stateAfter step i s)).1) := by
  intro n
  induction n with
  | zero => intro s i hi; exact absurd hi (Nat.not_lt_zero i)
  | succ n ih =>
      intro s i hi
      cases i with
      | zero => simp [generateFrom, stateAfter]
      | succ i =>
          simp only [generateFrom, stateAfter, List.getElem?_cons_succ]
          exact ih (step s).2 i (by omega)

theorem generateFrom_const {σ α : Type} (c : α) :
    ∀ (n : Nat) (s : σ),
      generateFrom (fun s => (c, s)) n s = (List.replicate n c, s) := by
  intro n
  induction n with
  | zero => intro s; rfl
  | succ n ih => intro s; simp [generateFrom, ih, List.replicate_succ]

theorem foldl_add_eq {α : Type} (f : α → Nat) :
    ∀ (l : List α) (init : Nat),
      l.foldl (fun acc v => acc + f v) init = init + (l.map f).sum := by
  intro l
  induction l with
  | nil => intro init; simp
  | cons a l ih => intro init; simp [ih, Nat.add_assoc]

theorem sum_set_bump :
    ∀ (bk : List Nat) (a : Nat), a < bk.length →
      (bk.set a (bk.getD a 0 + 1)).sum = bk.sum + 1 := by
  intro bk
  induction bk with
  | nil => intro a ha; simp at ha
  | cons x t ih =>
      intro a ha
      cases a with
      | zero => simp; omega
      | succ a =>
          have h := ih a (by simpa using ha)
          simp only [List.set, List.getD_cons_succ, List.sum_cons, h]
          omega

theorem bucketise_fold_sum :
    ∀ (ages : List Nat) (bk : List Nat), (∀ a ∈ ages, a < bk.length) →
      (ages.foldl (fun b a => b.set a (b.getD a 0 + 1)) bk).sum
        = bk.sum + ages.length := by
  intro ages
  induction ages with
  | nil => intro bk h; simp
  | cons a ages ih =>
      intro bk h
      have ha : a < bk.length := h a (List.mem_cons_self a ages)
      have hrest : ∀ x ∈ ages, x < (bk.set a (bk.getD a 0 + 1)).length := by
        intro x hx
        rw [List.length_set]
        exact h x (List.mem_cons_of_mem a hx)
      simp only [List.foldl_cons, List.length_cons]
      rw [ih _ hrest, sum_set_bump bk a ha]
      omega

theorem foldl_addmod (m : Nat) :
    ∀ (bs : List Nat) (a : Nat),
      bs.foldl (fun x b => (x + b) % m) (a % m) = (a + bs.sum) % m := by
  intro bs
  induction bs with
  | nil => intro a; simp
  | cons b bs ih =>
      intro a
      simp only [List.foldl_cons, List.sum_cons]
      rw [Nat.mod_add_mod, ih (a + b), Nat.add_assoc]

theorem accumulate_u32_eq (buckets : List Nat) :
    accumulate_u32 buckets = buckets.sum % u32Mod := by
  have h := foldl_addmod u32Mod buckets 0
  simpa [accumulate_u32] using h

theorem medianScan_no_trigger (n : Nat) :
    ∀ (bs : List Nat) (i cum : Nat),
      (∀ j, j < bs.length → modCum cum (bs.take (j + 1)) ≤ n / 2) →
      medianScan n bs i cum = i + bs.length := by
  intro bs
  induction bs with
  | nil => intro i cum _; rfl
  | cons b bs ih =>
      intro i cum h
      have h0 : (cum + b) % u64Mod ≤ n / 2 := by
        have := h 0 (by simp)
        simpa [modCum] using this
      have hniff : ¬ (n / 2 < (cum + b) % u64Mod) := by omega
      have hrec : ∀ j, j < bs.length →
          modCum ((cum + b) % u64Mod) (bs.take (j + 1)) ≤ n / 2 := by
        intro j hj
        have := h (j + 1) (by simpa using Nat.succ_lt_succ hj)
        simpa [modCum, List.take_succ_cons] using this
      calc medianScan n (b :: bs) i cum
          = medianScan n bs (i + 1) ((cum + b) % u64Mod) := by
            simp [medianScan, hniff]
        _ = (i + 1) + bs.length := ih (i + 1) _ hrec
        _ = i + (b :: bs).length := by simp [List.length_cons]; omega

/-! ### Claim theorems -/

/--
Claim C1: the claim says that whenever the bucket counts sum to `n ≥ 1`,
`find_median_bucket` returns the smallest index whose running cumulative
count strictly exceeds `n / 2`.  The code violates this: its assertion
accumulates the counts in 32-bit `unsigned` (the deduced type of the seed
`0u`), so for `buckets = [2 ^ 32]` and `n = 2 ^ 32` — where the true sum
equals `n` and the claimed result is index `0` — the accumulated total wraps
to `0 ≠ n` and the process aborts instead of returning.  This theorem
evaluates the embedded code at that failing input.
-/
theorem find_median_bucket_aborts_on_exact_total :
    List.sum [2 ^ 32] = 2 ^ 32 ∧ 1 ≤ 2 ^ 32 ∧
      find_median_bucket [2 ^ 32] (2 ^ 32) = none := by
  refine ⟨by simp, by norm_num, ?_⟩
  decide

/--
Claim C3: the claim says that whenever the true sum of the bucket counts
differs from `n`, the assertion fails and the process aborts, never producing
a silent answer.  The code violates this: for `buckets = [2 ^ 32 + 1]` and
`n = 1` the true sum `2 ^ 32 + 1` differs from `n`, but the 32-bit
accumulation wraps to `1 = n`, the assertion passes, and the function
silently returns bucket `0`.  This theorem evaluates the embedded code at
that failing input.
-/
theorem find_median_bucket_silently_accepts_wrapped_total :
    List.sum [2 ^ 32 + 1] ≠ 1 ∧ find_median_bucket [2 ^ 32 + 1] 1 = some 0 := by
  constructor
  · simp
  · decide

/--
Claim C4 counterexample: the claim quantifies over every histogram and total
`n` with no prefix cumulative count exceeding `n / 2` and asserts the
sentinel `buckets.size()` is returned; but for `buckets = [0]` and `n = 1`
(no prefix exceeds `1 / 2 = 0`) the assertion fires — the sum `0` differs
from `n = 1` — and the process aborts instead of returning the sentinel `1`.
-/
theorem find_median_bucket_aborts_rather_than_sentinel :
    (∀ i, i < ([0] : List Nat).length → cumAt [0] (i + 1) ≤ 1 / 2) ∧
      find_median_bucket [0] 1 ≠ some ([0] : List Nat).length := by
  constructor
  · decide
  · decide

/--
Claim C4 (amended): for every histogram and total `n` for which the checked
assertion passes (the 32-bit-accumulated sum of the bucket counts equals `n`)
and no prefix's cumulative count strictly exceeds `n / 2`,
`find_median_bucket` deterministically returns the sentinel value
`buckets.size()`, one past the last valid bucket index — in particular for
the all-zero histogram with `n = 0`.
-/
theorem find_median_bucket_sentinel_of_no_trigger (buckets : List Nat) (n : Nat)
    (hassert : accumulate_u32 buckets = n)
    (hno : ∀ i, i < buckets.length → cumAt buckets (i + 1) ≤ n / 2) :
    find_median_bucket buckets n = some buckets.length := by
  unfold find_median_bucket
  rw [if_pos hassert]
  have h := medianScan_no_trigger n buckets 0 0 (fun j hj => hno j hj)
  rw [h]
  simp

/--
Witness for claim C4 (amended): the 256-bucket all-zero histogram of the
empty population with `n = 0` yields the sentinel `256`.
-/
theorem find_median_bucket_sentinel_of_no_trigger_witness :
    find_median_bucket (List.replicate 256 0) 0
      = some (List.replicate (256 : Nat) (0 : Nat)).length :=
  find_median_bucket_sentinel_of_no_trigger (List.replicate 256 0) 0
    (by decide) (by decide)

/--
Claim C2: for every population of size `n` — a vector of `n` AoS `person`
records, or an SoA `census` whose age vector has length `n` — the 256-bucket
histogram returned by `bucketise_by_age` sums to exactly `n`.  The
hypotheses record the `uint8_t` type bound on ages.
-/
theorem bucketise_by_age_sum_eq_population_size (persons : aos.census)
    (c : soa.census)
    (h1 : ∀ p ∈ persons, p.age < 256) (h2 : ∀ a ∈ c.age, a < 256) :
    (aos.bucketise_by_age 256 persons).sum = persons.length ∧
      (soa.bucketise_by_age 256 c).sum = c.age.length := by
  have hz : (List.replicate 256 (0 : Nat)).sum = 0 := by decide
  constructor
  · have hm : ∀ a ∈ persons.map person.age,
        a < (List.replicate 256 (0 : Nat)).length := by
      intro a ha
      rcases List.mem_map.mp ha with ⟨p, hp, hpa⟩
      simpa [List.length_replicate, ← hpa] using h1 p hp
    have h := bucketise_fold_sum (persons.map person.age)
      (List.replicate 256 0) hm
    rw [List.foldl_map] at h
    simpa [aos.bucketise_by_age, hz] using h
  · have hm : ∀ a ∈ c.age, a < (List.replicate 256 (0 : Nat)).length := by
      intro a ha
      simpa [List.length_replicate] using h2 a ha
    have h := bucketise_fold_sum c.age (List.replicate 256 0) hm
    simpa [soa.bucketise_by_age, hz] using h

/--
Witness for claim C2: a one-person AoS population and a two-person SoA age
vector produce histograms summing to 1 and 2 respectively.
-/
theorem bucketise_by_age_sum_eq_population_size_witness :
    (aos.bucketise_by_age 256
        [{ age := 42, country := 1, income := 10000
         , hst := HousingStatus.owner, sex := Sex.male }]).sum = 1 ∧
      (soa.bucketise_by_age 256
        { sex := [], age := [7, 7], income := [], country := [], hst := [] }).sum
        = 2 :=
  bucketise_by_age_sum_eq_population_size
    [{ age := 42, country := 1, income := 10000
     , hst := HousingStatus.owner, sex := Sex.male }]
    { sex := [], age := [7, 7], income := [], country := [], hst := [] }
    (by decide) (by decide)

/--
Claim C5: for every population size `n ≥ 0` (including `n = 0`, which yields
empty outputs), `aos.create_random_census` returns a vector of exactly `n`
`person` records, and `soa.create_random_census` returns five field-parallel
vectors (sex, age, income, country, hst), each of length exactly `n`.
-/
theorem create_random_census_lengths {σ : Type} (d : Distributions σ)
    (s0 : σ) (n : Nat) :
    (aos.create_random_census d n s0).length = n ∧
      (soa.create_random_census d n s0).sex.length = n ∧
      (soa.create_random_census d n s0).age.length = n ∧
      (soa.create_random_census d n s0).income.length = n ∧
      (soa.create_random_census d n s0).country.length = n ∧
      (soa.create_random_census d n s0).hst.length = n := by
  refine ⟨?_, ?_, ?_, ?_, ?_, ?_⟩ <;>
    simp [aos.create_random_census, soa.create_random_census,
      generateFrom_length]

/--
Claim C6 counterexample: the claim asserts every income produced by the AoS
generator equals a geometric draw plus 10000 and hence is at least 10000.
The addition is 32-bit unsigned, so a draw of `2 ^ 32 - 1` (a value of the
distribution's `uint32_t` result type) wraps to income `9999 < 10000`.
-/
theorem aos_income_wraps_below_offset :
    (aos.create_random_census
        { sex_distr := fun s => (0, s), country_distr := fun s => (0, s)
        , age_distr := fun s => (0, s), hst_distr := fun s => (true, s)
        , income_distr := fun s => (2 ^ 32 - 1, s) } 1 ()).map person.income
      = [9999] ∧ (9999 : Nat) < 10000 := by
  constructor
  · decide
  · decide

/--
Claim C6 (amended): every income produced by the AoS census generator equals
its geometric draw plus the offset 10000 reduced modulo `2 ^ 32` — hence is
at least 10000 whenever the draw stays below `2 ^ 32 - 10000` — whereas
every income produced by the SoA census generator is the raw geometric draw
with no offset.
-/
theorem income_offset_amended {σ : Type} (d : Distributions σ) (s0 : σ)
    (n : Nat) :
    (∀ p ∈ aos.create_random_census d n s0,
        ∃ s, p.income = ((d.income_distr s).1 + 10000) % u32Mod) ∧
      (∀ v ∈ (soa.create_random_census d n s0).income,
        ∃ s, v = (d.income_distr s).1) ∧
      ((∀ s, (d.income_distr s).1 + 10000 < u32Mod) →
        ∀ p ∈ aos.create_random_census d n s0, 10000 ≤ p.income) := by
  have haos : ∀ p ∈ aos.create_random_census d n s0,
      ∃ s, p.income = ((d.income_distr s).1 + 10000) % u32Mod := by
    intro p hp
    rcases generateFrom_mem (aos.build_person d) n s0 p hp with ⟨t, ht⟩
    subst ht
    exact ⟨(d.country_distr (d.age_distr t).2).2, rfl⟩
  refine ⟨haos, ?_, ?_⟩
  · intro v hv
    exact generateFrom_mem d.income_distr n _ v hv
  · intro hbound p hp
    rcases haos p hp with ⟨s, hs⟩
    rw [hs, Nat.mod_eq_of_lt (hbound s)]
    omega

/--
Witness for claim C6 (amended): with a draw family whose geometric draws stay
below 7, the single AoS record generated has income at least 10000.
-/
theorem income_offset_amended_witness :
    (aos.create_random_census exampleDraws 1 0).map person.income = [10002] ∧
      10000 ≤ (person.mk 0 1 10002 HousingStatus.owner Sex.male).income := by
  refine ⟨by decide, ?_⟩
  exact (income_offset_amended exampleDraws 0 1).2.2
    (fun s => by
      have h7 : s % 7 < 7 := Nat.mod_lt s (by norm_num)
      simp only [exampleDraws, u32Mod]
      norm_num
      omega)
    (person.mk 0 1 10002 HousingStatus.owner Sex.male) (by decide)

/--
Claim C7: for every callable `f` and every non-empty batch, the benchmark
harness applies `f` to each element exactly once in sequence order,
accumulating the outputs by addition (so the accumulated total is the sum of
`f` over the batch, and `k * c` for a constant-`c` callable over a batch of
size `k`), and the returned average per-call duration is non-negative given
the monotonicity of `steady_clock`.
-/
theorem benchmark_accumulates_and_nonneg {α : Type} (f : α → Nat)
    (test_instances : List α) (c : Nat) (t0 t1 : Int)
    (hne : test_instances ≠ []) (hmono : t0 ≤ t1) :
    (benchmark.benchmark f test_instances t0 t1).1 = (test_instances.map f).sum ∧
      ((∀ x, f x = c) →
        (benchmark.benchmark f test_instances t0 t1).1
          = test_instances.length * c) ∧
      0 ≤ (benchmark.benchmark f test_instances t0 t1).2 := by
  refine ⟨?_, ?_, ?_⟩
  · simpa [benchmark.benchmark] using foldl_add_eq f test_instances 0
  · intro hc
    have h : (test_instances.map f).sum = test_instances.length * c := by
      clear hne
      induction test_instances with
      | nil => simp
      | cons x l ih => simp [hc, ih]; ring
    simpa [benchmark.benchmark, h] using foldl_add_eq f test_instances 0
  · unfold benchmark.benchmark
    apply div_nonneg
    · exact_mod_cast Int.sub_nonneg.mpr hmono
    · exact_mod_cast Nat.zero_le _

/--
Witness for claim C7: a constant-5 callable over a two-element batch
accumulates to `2 * 5`, with a non-negative average duration.
-/
theorem benchmark_accumulates_and_nonneg_witness :
    (benchmark.benchmark (fun _ : Unit => (5 : Nat)) [(), ()] 0 4).1 = 2 * 5 ∧
      0 ≤ (benchmark.benchmark (fun _ : Unit => (5 : Nat)) [(), ()] 0 4).2 := by
  have h := benchmark_accumulates_and_nonneg (fun _ : Unit => (5 : Nat))
    [(), ()] 5 0 4 (by simp) (by norm_num)
  exact ⟨h.2.1 (fun _ => rfl), h.2.2⟩

/--
Claim C8: for every zero-argument callable `gen` (modelled with explicit
state) and every length `size ≥ 0`, `build_rand_vec gen size` returns a
sequence of exactly `size` elements whose element `i` is the result of the
`i`-th invocation of `gen`; with size 0 it returns the empty sequence for
every `gen`, and with a constant-returning `gen` it returns `size` copies of
that constant.
-/
theorem build_rand_vec_spec {σ α : Type} (gen : σ → α × σ) (size : Nat)
    (s0 : σ) :
    (benchmark.build_rand_vec gen size s0).length = size ∧
      (∀ i, i < size →
        (benchmark.build_rand_vec gen size s0)[i]? =
          some ((gen (stateAfter gen i s0)).1)) ∧
      benchmark.build_rand_vec gen 0 s0 = [] ∧
      ∀ c : α, benchmark.build_rand_vec (fun s => (c, s)) size s0 =
        List.replicate size c := by
  refine ⟨generateFrom_length gen size s0, ?_, rfl, ?_⟩
  · intro i hi
    exact generateFrom_getElem gen size s0 i hi
  · intro c
    unfold benchmark.build_rand_vec
    rw [generateFrom_const c size s0]

/--
Witness for claim C8: a counter generator over state `Nat` yields `[0, 1, 2]`
(element 1 is the second invocation's result), length 0 yields `[]`, and a
constant-7 generator yields three copies of 7.
-/
theorem build_rand_vec_spec_witness :
    (benchmark.build_rand_vec (fun s : Nat => (s, s + 1)) 3 0).length = 3 ∧
      (benchmark.build_rand_vec (fun s : Nat => (s, s + 1)) 3 0)[1]? = some 1 ∧
      benchmark.build_rand_vec (fun s : Nat => (s, s + 1)) 0 0 = [] ∧
      benchmark.build_rand_vec (fun s : Nat => ((7 : Nat), s)) 3 0
        = List.replicate 3 7 := by
  have h := build_rand_vec_spec (fun s : Nat => (s, s + 1)) 3 0
  exact ⟨h.1, h.2.1 1 (by norm_num), h.2.2.1,
    (build_rand_vec_spec (fun s : Nat => ((7 : Nat), s)) 3 0).2.2.2 7⟩

/--
Claim C9: every census operation is deterministic given its random-engine
seed.  The embedding is a pure function of the population size, the draw
family and the engine's initial state precisely because the source reads no
ambient state: `aos::build_person` holds its own default-constructed
`default_random_engine` member and `soa::create_random_census` constructs a
local default-constructed engine, and neither consults `rand()`, globals or
any other external input.  Hence two runs with equal arguments (in the source
the engine state is always the same default seed) produce identical outputs.
-/
theorem create_random_census_deterministic {σ : Type}
    (d d2 : Distributions σ) (n n2 : Nat) (s0 s02 : σ)
    (hd : d = d2) (hn : n = n2) (hs : s0 = s02) :
    aos.create_random_census d n s0 = aos.create_random_census d2 n2 s02 ∧
      soa.create_random_census d n s0 = soa.create_random_census d2 n2 s02 := by
  subst hd
  subst hn
  subst hs
  exact ⟨rfl, rfl⟩

/--
Witness for claim C9: two runs of each generator at population size 2 with
the same draws and default engine state coincide.
-/
theorem create_random_census_deterministic_witness :
    aos.create_random_census exampleDraws 2 0
        = aos.create_random_census exampleDraws 2 0 ∧
      soa.create_random_census exampleDraws 2 0
        = soa.create_random_census exampleDraws 2 0 :=
  create_random_census_deterministic exampleDraws exampleDraws 2 2 0 0
    rfl rfl rfl

/--
Claim C10: every age drawn by the census generators lies in the binomial
distribution's mandated range `[0, 120]`, hence below the histogram width
`2 ^ 8 = 256` used by the median-age pipeline, so every
`++buckets[age]` in `bucketise_by_age` is an in-bounds access.
-/
theorem census_age_in_bounds {σ : Type} (d : Distributions σ) (s0 : σ)
    (n : Nat) (hage : ∀ s, (d.age_distr s).1 ≤ 120) :
    (∀ a ∈ (soa.create_random_census d n s0).age, a ≤ 120 ∧ a < 2 ^ 8) ∧
      ∀ p ∈ aos.create_random_census d n s0, p.age ≤ 120 ∧ p.age < 2 ^ 8 := by
  constructor
  · intro a ha
    rcases generateFrom_mem d.age_distr n _ a ha with ⟨t, hv⟩
    subst hv
    exact ⟨hage t, lt_of_le_of_lt (hage t) (by norm_num)⟩
  · intro p hp
    rcases generateFrom_mem (aos.build_person d) n s0 p hp with ⟨t, hv⟩
    subst hv
    exact ⟨hage t, lt_of_le_of_lt (hage t) (by norm_num)⟩

/--
Witness for claim C10: the one-person SoA census generated by `exampleDraws`
has age vector `[1]`, and that age is within `[0, 120]` and below `2 ^ 8`.
-/
theorem census_age_in_bounds_witness :
    (soa.create_random_census exampleDraws 1 0).age = [1] ∧
      ((1 : Nat) ≤ 120 ∧ (1 : Nat) < 2 ^ 8) := by
  refine ⟨by decide, ?_⟩
  exact (census_age_in_bounds exampleDraws 0 1
    (fun s => by simp only [exampleDraws]; omega)).1 1 (by decide)

end csc586
